import Mathlib

/-!
Verification of the incremental temporal synchronization protocol of the
ESD_OEDS crawler collection (src/oeds/base_crawler.py,
src/crawler/common/base_crawler.py, src/crawler/smard.py,
src/oeds/crawler/e2watch.py).

Shallow embedding conventions:
* timestamps are integers (a fixed time unit, e.g. hours since an epoch;
  all temporal data is UTC in the source);
* the stored table content relevant to the sync protocol is the list of
  timestamps of its rows (`List Int`), since `get_first_data` /
  `get_latest_data` only ever query `MIN` / `MAX` of the time column;
* SQL scalar results are `Option Int` (`none` models SQL `NULL`), and a
  query that can raise is `Except String (Option Int)`;
* Python `while` loops over dates are encoded with an explicit fuel
  argument equal to the loop-variant bound, so that every definition is
  structurally recursive and kernel-reducible.
-/

namespace Oeds

/-! ## Timestamp MIN/MAX aggregates

`get_latest_data` runs `SELECT MAX(time) FROM table` and
`get_first_data` runs `SELECT MIN(time) FROM table`; both coalesce a
NULL / failed result to the source's epoch floor (`TEMPORAL_START`).
-/

/-- `SELECT MIN(t)` over the stored timestamps: `none` on an empty table. -/
def minTimestamp : List Int → Option Int
  | [] => none
  | t :: ts =>
    match minTimestamp ts with
    | none => some t
    | some m => some (min t m)

/-- `SELECT MAX(t)` over the stored timestamps: `none` on an empty table. -/
def maxTimestamp : List Int → Option Int
  | [] => none
  | t :: ts =>
    match maxTimestamp ts with
    | none => some t
    | some m => some (max t m)

/-- `get_first_data`: `MIN(time)` of the stored rows, with a NULL result
(empty table) coalesced to the source floor (`scalar() or TEMPORAL_START`). -/
def getFirstData (store : List Int) (floor : Int) : Int :=
  (minTimestamp store).getD floor

/-- `get_latest_data`: `MAX(time)` of the stored rows, with a NULL result
coalesced to the source floor. -/
def getLatestData (store : List Int) (floor : Int) : Int :=
  (maxTimestamp store).getD floor

theorem minTimestamp_eq_none {l : List Int} : minTimestamp l = none ↔ l = [] := by
  cases l with
  | nil => simp [minTimestamp]
  | cons t ts =>
    simp only [minTimestamp]
    cases minTimestamp ts <;> simp

theorem maxTimestamp_eq_none {l : List Int} : maxTimestamp l = none ↔ l = [] := by
  cases l with
  | nil => simp [maxTimestamp]
  | cons t ts =>
    simp only [maxTimestamp]
    cases maxTimestamp ts <;> simp

theorem minTimestamp_le_of_mem {l : List Int} {t m : Int}
    (ht : t ∈ l) (hm : minTimestamp l = some m) : m ≤ t := by
  induction l generalizing m with
  | nil => cases ht
  | cons a as ih =>
    simp only [minTimestamp] at hm
    rcases List.mem_cons.mp ht with rfl | hmem
    · cases h : minTimestamp as with
      | none => rw [h] at hm; simp at hm; omega
      | some m' => rw [h] at hm; simp at hm; subst hm; exact min_le_left _ _
    · cases h : minTimestamp as with
      | none =>
        rw [minTimestamp_eq_none] at h
        subst h; cases hmem
      | some m' =>
        rw [h] at hm; simp at hm; subst hm
        exact le_trans (min_le_right _ _) (ih hmem h)

theorem le_maxTimestamp_of_mem {l : List Int} {t m : Int}
    (ht : t ∈ l) (hm : maxTimestamp l = some m) : t ≤ m := by
  induction l generalizing m with
  | nil => cases ht
  | cons a as ih =>
    simp only [maxTimestamp] at hm
    rcases List.mem_cons.mp ht with rfl | hmem
    · cases h : maxTimestamp as with
      | none => rw [h] at hm; simp at hm; omega
      | some m' => rw [h] at hm; simp at hm; subst hm; exact le_max_left _ _
    · cases h : maxTimestamp as with
      | none =>
        rw [maxTimestamp_eq_none] at h
        subst h; cases hmem
      | some m' =>
        rw [h] at hm; simp at hm; subst hm
        exact le_trans (ih hmem h) (le_max_right _ _)

theorem maxTimestamp_mem {l : List Int} {m : Int}
    (hm : maxTimestamp l = some m) : m ∈ l := by
  induction l generalizing m with
  | nil => simp [maxTimestamp] at hm
  | cons a as ih =>
    simp only [maxTimestamp] at hm
    cases h : maxTimestamp as with
    | none => rw [h] at hm; simp at hm; simp [hm]
    | some m' =>
      rw [h] at hm; simp at hm; subst hm
      rcases max_choice a m' with hc | hc
      · simp [hc]
      · rw [hc]; exact List.mem_cons_of_mem _ (ih h)

theorem minTimestamp_mem {l : List Int} {m : Int}
    (hm : minTimestamp l = some m) : m ∈ l := by
  induction l generalizing m with
  | nil => simp [minTimestamp] at hm
  | cons a as ih =>
    simp only [minTimestamp] at hm
    cases h : minTimestamp as with
    | none => rw [h] at hm; simp at hm; simp [hm]
    | some m' =>
      rw [h] at hm; simp at hm; subst hm
      rcases min_choice a m' with hc | hc
      · simp [hc]
      · rw [hc]; exact List.mem_cons_of_mem _ (ih h)

theorem getFirstData_le_of_mem {l : List Int} {t : Int} (floor : Int)
    (ht : t ∈ l) : getFirstData l floor ≤ t := by
  unfold getFirstData
  cases h : minTimestamp l with
  | none => rw [minTimestamp_eq_none] at h; subst h; cases ht
  | some m => simpa using minTimestamp_le_of_mem ht h

theorem le_getLatestData_of_mem {l : List Int} {t : Int} (floor : Int)
    (ht : t ∈ l) : t ≤ getLatestData l floor := by
  unfold getLatestData
  cases h : maxTimestamp l with
  | none => rw [maxTimestamp_eq_none] at h; subst h; cases ht
  | some m => simpa using le_maxTimestamp_of_mem ht h

/-! ## Integer windows

A window `[b, e)` of timestamps, one row per time unit.  Encoded with a
fuel argument `n = (e - b).toNat` so the definition is structurally
recursive.
-/

/-- `intsInAux n b = [b, b+1, ..., b+n-1]`. -/
def intsInAux : Nat → Int → List Int
  | 0, _ => []
  | n + 1, b => b :: intsInAux n (b + 1)

/-- All integer timestamps of the half-open window `[b, e)`. -/
def intsIn (b e : Int) : List Int :=
  intsInAux (e - b).toNat b

theorem mem_intsInAux {n : Nat} {b t : Int} :
    t ∈ intsInAux n b ↔ b ≤ t ∧ t < b + n := by
  induction n generalizing b with
  | zero => simp [intsInAux]
  | succ n ih =>
    simp only [intsInAux, List.mem_cons, ih]
    omega

theorem mem_intsIn {b e t : Int} : t ∈ intsIn b e ↔ b ≤ t ∧ t < e := by
  unfold intsIn
  rw [mem_intsInAux]
  omega

theorem intsIn_eq_nil {b e : Int} (h : e ≤ b) : intsIn b e = [] := by
  unfold intsIn
  have : (e - b).toNat = 0 := by omega
  rw [this]
  rfl

/-! ## `ContinuousCrawler.crawl_temporal`

`crawl_temporal(begin, end)` (src/oeds/base_crawler.py:111-125) reads
`latest = get_latest_data()`; if `begin` was supplied and
`begin < first = get_first_data()` it calls `crawl_from_to(begin, first)`
(backfill); it resolves a missing `end` to `datetime.now()`; and if
`latest < end - get_minimum_offset()` it calls `crawl_from_to(latest, end)`
(forward fill).  The variant in src/crawler/common/base_crawler.py:100-112
is identical except that its forward-fill guard is `latest < end`, with no
offset subtracted.

We model the windows passed to `crawl_from_to` as explicit data.
-/

/-- The backfill call: `crawl_from_to(begin, first)` is issued iff `begin`
was supplied and `begin < first` (both variants). -/
def backfillCall (begin? : Option Int) (first : Int) : Option (Int × Int) :=
  match begin? with
  | none => none
  | some b => if b < first then some (b, first) else none

/-- The forward-fill call of the src/oeds variant:
`crawl_from_to(latest, end)` is issued iff `latest < end - offset`,
where `offset = cls.get_minimum_offset()` (default `OFFSET_FROM_NOW`,
one hour). -/
def forwardFillCallOeds (offset latest e : Int) : Option (Int × Int) :=
  if latest < e - offset then some (latest, e) else none

/-- The forward-fill call of the src/crawler/common variant:
`crawl_from_to(latest, end)` is issued iff `latest < end`. -/
def forwardFillCallCommon (latest e : Int) : Option (Int × Int) :=
  if latest < e then some (latest, e) else none

/-- The sequence of `crawl_from_to(begin, end)` calls issued by one run of
the src/oeds `crawl_temporal`, given the values `first` / `latest`
returned by `get_first_data()` / `get_latest_data()`: the backfill call
first (if any), then the forward-fill call (if any).  `now` resolves a
missing `end`. -/
def crawlTemporalCallsOeds (offset first latest : Int)
    (begin? end? : Option Int) (now : Int) : List (Int × Int) :=
  (backfillCall begin? first).toList
    ++ (forwardFillCallOeds offset latest (end?.getD now)).toList

/-- The sequence of `crawl_from_to` calls issued by one run of the
src/crawler/common `crawl_temporal`. -/
def crawlTemporalCallsCommon (first latest : Int)
    (begin? end? : Option Int) (now : Int) : List (Int × Int) :=
  (backfillCall begin? first).toList
    ++ (forwardFillCallCommon latest (end?.getD now)).toList

/-- A successful `crawl_from_to(b, e)` against a reachable mock upstream
whose data starts at the source floor: the per-source implementations
clamp `begin` to `TEMPORAL_START` (src/crawler/smard.py:167-168,
src/oeds/crawler/e2watch.py:97-98) and clamp `end` to the availability
horizon `now - minimum_offset` (e2watch.py:100-103
`data_available_until = datetime.now() - self.get_minimum_offset()`;
smard.py:170-171 `end = datetime.now() + OFFSET_FROM_NOW` with its
6-hour lag), so the rows written are exactly the timestamps of
`[max b floor, min e (now - offset))`. -/
def fetchWindowClamped (offset floor now b e : Int) : List Int :=
  intsIn (max b floor) (min e (now - offset))

/-- Appending the rows written by a sequence of successful
`crawl_from_to` calls to the stored table. -/
def applyFetchesClamped (offset floor now : Int) (store : List Int)
    (calls : List (Int × Int)) : List Int :=
  store ++ (calls.map fun c => fetchWindowClamped offset floor now c.1 c.2).flatten

/-- The stored timestamps after `crawl_temporal(begin?, end?)` of the
src/oeds variant, with every window fetch succeeding against the mock
upstream. -/
def crawlTemporalOedsClamped (offset floor now : Int) (store : List Int)
    (begin? end? : Option Int) : List Int :=
  applyFetchesClamped offset floor now store
    (crawlTemporalCallsOeds offset (getFirstData store floor)
      (getLatestData store floor) begin? end? now)

/-! ## Existence probes (src/oeds/crawler/e2watch.py, src/crawler/smard.py)

`structure_exists` runs `SELECT 1 from buildings limit 1` and returns
`scalar() == 1`, with any raised exception converted to `False`
(e2watch.py:41-48).  `get_latest_data` / `get_first_data` run
`MAX`/`MIN` queries and return `scalar() or TEMPORAL_START`, with any
raised exception converted to `TEMPORAL_START`
(smard.py:138-154, e2watch.py:58-84).  The probes are total: no error
escapes to the caller.
-/

/-- `E2WatchCrawler.structure_exists`, as a function of the outcome of
the `SELECT 1 from buildings limit 1` query. -/
def structureExistsProbe (r : Except String (Option Int)) : Bool :=
  match r with
  | .error _ => false
  | .ok v => v == some 1

/-- `get_latest_data`, as a function of the outcome of the
`SELECT MAX(...)` query (`scalar() or TEMPORAL_START`; errors fall back
to the floor). -/
def latestDataProbe (floor : Int) (r : Except String (Option Int)) : Int :=
  match r with
  | .error _ => floor
  | .ok v => v.getD floor

/-- `get_first_data`, as a function of the outcome of the
`SELECT MIN(...)` query. -/
def firstDataProbe (floor : Int) (r : Except String (Option Int)) : Int :=
  match r with
  | .error _ => floor
  | .ok v => v.getD floor

/-! ## `BaseCrawler.__init__` and the in-place config mutation

`BaseCrawler.__init__(schema_name, config)` (src/oeds/base_crawler.py:34-41,
src/crawler/common/base_crawler.py:29-36) stores the caller's config
mapping, then overwrites `config["db_uri"]` with
`config["db_uri"].format(DBNAME=schema_name)` and creates the engine
from that URI.  A URI template is a list of fragments: literal text and
occurrences of the `{DBNAME}` placeholder; `str.format` substitutes
every placeholder and leaves a placeholder-free string unchanged.
-/

/-- One fragment of the `db_uri` template. -/
inductive UriFrag where
  | lit (s : String)
  | dbname
deriving DecidableEq

/-- Python's `uri.format(DBNAME=schema)`: every `{DBNAME}` placeholder is
replaced by the schema name; literal text is untouched. -/
def formatDBNAME (t : List UriFrag) (schema : String) : List UriFrag :=
  t.map fun f =>
    match f with
    | .dbname => .lit schema
    | .lit s => .lit s

/-- The observable outcome of `BaseCrawler.__init__`: the config mapping
after the in-place overwrite of `config["db_uri"]`, and the URI handed to
`create_engine`. -/
structure InitResult where
  config : List UriFrag
  engineUri : List UriFrag
deriving DecidableEq

/-- `BaseCrawler.__init__`: substitute the schema name into the config's
`db_uri`, overwrite `config["db_uri"]` in place, connect with the result. -/
def baseCrawlerInit (dbUri : List UriFrag) (schema : String) : InitResult :=
  let uri := formatDBNAME dbUri schema
  ⟨uri, uri⟩

theorem formatDBNAME_formatDBNAME (t : List UriFrag) (s1 s2 : String) :
    formatDBNAME (formatDBNAME t s1) s2 = formatDBNAME t s1 := by
  induction t with
  | nil => rfl
  | cons f fs ih =>
    cases f <;> simp [formatDBNAME] at ih ⊢ <;> exact ih

theorem formatDBNAME_injective_on_schema {t : List UriFrag} {s1 s2 : String}
    (hmem : UriFrag.dbname ∈ t) (hne : s1 ≠ s2) :
    formatDBNAME t s1 ≠ formatDBNAME t s2 := by
  induction t with
  | nil => cases hmem
  | cons f fs ih =>
    cases f with
    | lit s =>
      have hmem' : UriFrag.dbname ∈ fs := by
        rcases List.mem_cons.mp hmem with h | h
        · cases h
        · exact h
      simp only [formatDBNAME, List.map_cons] at ih ⊢
      intro h
      exact ih hmem' (by injection h)
    | dbname =>
      simp only [formatDBNAME, List.map_cons]
      intro h
      injection h with h1 _
      injection h1 with h2
      exact hne h2

/-! ## `DownloadOnceCrawler.crawl_structural`

`crawl_structural(recreate)` (src/oeds/crawler/e2watch.py:50-56,
src/crawler/common/base_crawler.py:59-66): if the structure does not
exist or `recreate` is set, fetch the snapshot and replace the table;
then run the idempotent hypertable hook.  State: whether
`structure_exists()` currently returns true.  `fetchMakesExists` is
whether the fetch-and-replace leaves `structure_exists()` true (for
e2watch it replaces the `buildings` table with the fetched rows).
-/

/-- One call of `crawl_structural`: returns (did a full fetch-and-replace
happen, `structure_exists()` afterwards). -/
def crawlStructural (fetchMakesExists exists_ recreate : Bool) : Bool × Bool :=
  if !exists_ || recreate then (true, fetchMakesExists) else (false, exists_)

/-! ## Date constants for the spec's worked example (C2)

Days since 2019-01-01 (2020 is a leap year). -/

/-- 2019-06-01. -/
def d20190601 : Int := 151

/-- 2020-01-01. -/
def d20200101 : Int := 365

/-- 2020-06-01. -/
def d20200601 : Int := 517

/-- 2020-12-01. -/
def d20201201 : Int := 700

/-- C8: every existence probe converts a raised database error into the
"no data" default instead of propagating it: `structure_exists` returns
`false`, and `get_latest_data` / `get_first_data` return the source's
epoch floor.  (The probes are total functions: no error value escapes.) -/
theorem existence_probes_swallow_errors (err : String) (floor : Int) :
    structureExistsProbe (.error err) = false ∧
    latestDataProbe floor (.error err) = floor ∧
    firstDataProbe floor (.error err) = floor :=
  ⟨rfl, rfl, rfl⟩

/-- C2: with stored range `[2020-01-01, 2020-06-01)` (so
`get_first_data() = 2020-01-01`, `get_latest_data() = 2020-06-01`),
`crawl_temporal(begin=2019-06-01, end=2020-12-01)` issues exactly two
`crawl_from_to` calls, in this order: the backfill
`(2019-06-01, 2020-01-01)` and then the forward fill
`(2020-06-01, 2020-12-01)`, provided `minimum_offset` is smaller than the
span from 2020-06-01 to 2020-12-01. -/
theorem crawl_temporal_backfill_then_forward (offset now : Int)
    (hoff : offset < d20201201 - d20200601) :
    crawlTemporalCallsOeds offset d20200101 d20200601
        (some d20190601) (some d20201201) now
      = [(d20190601, d20200101), (d20200601, d20201201)] := by
  have h1 : d20190601 < d20200101 := by norm_num [d20190601, d20200101]
  have h2 : d20200601 < d20201201 - offset := by
    simp only [d20201201, d20200601] at hoff ⊢; omega
  simp [crawlTemporalCallsOeds, backfillCall, forwardFillCallOeds, h1, h2]

/-- Witness for C2 at `offset = 1`, `now = 0`. -/
theorem crawl_temporal_backfill_then_forward_witness :
    (1:Int) < d20201201 - d20200601 ∧
    crawlTemporalCallsOeds 1 d20200101 d20200601
        (some d20190601) (some d20201201) 0
      = [(d20190601, d20200101), (d20200601, d20201201)] :=
  ⟨by decide, crawl_temporal_backfill_then_forward 1 0 (by decide)⟩

/-- C3 counterexample: the claim asserts that every `ContinuousCrawler`
issues the forward fill iff `latest < end - minimum_offset`.  The
src/crawler/common variant issues it iff `latest < end`
(src/crawler/common/base_crawler.py:110-111): with a publication-lag
offset of 6 hours (smard's `OFFSET_FROM_NOW = timedelta(hours=-6)`,
src/crawler/smard.py:133), `latest = 97` and `end = 100` (hours), the
forward-fill fetch is issued although `latest ≥ end - 6`. -/
theorem forward_fill_guard_counterexample :
    (forwardFillCallCommon 97 100).isSome = true ∧ ¬ ((97:Int) < 100 - 6) := by
  decide

/-- C3 (amended): the src/oeds `crawl_temporal` issues the forward fill
`crawl_from_to(latest, end)` iff `latest < end - get_minimum_offset()`;
the src/crawler/common variant issues it iff `latest < end`, with no
offset subtracted (its publication-lag clamping lives inside the
per-source `crawl_from_to` instead). -/
theorem forward_fill_guard (offset latest e : Int) :
    ((forwardFillCallOeds offset latest e).isSome ↔ latest < e - offset) ∧
    ((forwardFillCallCommon latest e).isSome ↔ latest < e) := by
  constructor
  · unfold forwardFillCallOeds
    split <;> simp_all
  · unfold forwardFillCallCommon
    split <;> simp_all

/-- C6: `BaseCrawler.__init__` overwrites `config["db_uri"]` in place with
the schema-substituted URI.  For two crawlers constructed sequentially
from the same config mapping, the second `format(DBNAME=...)` acts on an
already-substituted URI and leaves it unchanged, so the second crawler
connects with the first crawler's URI — not with the template substituted
by its own schema name. -/
theorem config_mutation_reuses_first_uri (t : List UriFrag) (s1 s2 : String)
    (hmem : UriFrag.dbname ∈ t) (hne : s1 ≠ s2) :
    (baseCrawlerInit (baseCrawlerInit t s1).config s2).engineUri
        = (baseCrawlerInit t s1).engineUri ∧
    (baseCrawlerInit (baseCrawlerInit t s1).config s2).engineUri
        ≠ (baseCrawlerInit t s2).engineUri := by
  refine ⟨formatDBNAME_formatDBNAME t s1 s2, ?_⟩
  show formatDBNAME (formatDBNAME t s1) s2 ≠ formatDBNAME t s2
  rw [formatDBNAME_formatDBNAME]
  exact formatDBNAME_injective_on_schema hmem hne

/-- Witness for C6: a postgres URI template with one `{DBNAME}`
placeholder, schemas "smard" then "e2watch". -/
theorem config_mutation_reuses_first_uri_witness :
    UriFrag.dbname ∈ [UriFrag.lit "postgresql://user@host/", UriFrag.dbname] ∧
    "smard" ≠ "e2watch" ∧
    ((baseCrawlerInit
        (baseCrawlerInit [UriFrag.lit "postgresql://user@host/", UriFrag.dbname]
          "smard").config "e2watch").engineUri
      = (baseCrawlerInit [UriFrag.lit "postgresql://user@host/", UriFrag.dbname]
          "smard").engineUri ∧
     (baseCrawlerInit
        (baseCrawlerInit [UriFrag.lit "postgresql://user@host/", UriFrag.dbname]
          "smard").config "e2watch").engineUri
      ≠ (baseCrawlerInit [UriFrag.lit "postgresql://user@host/", UriFrag.dbname]
          "e2watch").engineUri) :=
  ⟨by decide, by decide,
    config_mutation_reuses_first_uri _ "smard" "e2watch" (by decide) (by decide)⟩

/-- C7: calling `crawl_structural()` twice with `recreate=False` performs
exactly one full fetch-and-replace: given that the first call left
`structure_exists()` true, the second call issues no fetch, and from an
absent structure the first call does fetch. -/
theorem crawl_structural_idempotent (fr st0 : Bool)
    (h : (crawlStructural fr st0 false).2 = true) :
    (crawlStructural fr (crawlStructural fr st0 false).2 false).1 = false ∧
    (st0 = false → (crawlStructural fr st0 false).1 = true) := by
  cases fr <;> cases st0 <;> simp_all [crawlStructural]

/-- Witness for C7: fresh state, fetch populates the structure. -/
theorem crawl_structural_idempotent_witness :
    (crawlStructural true false false).2 = true ∧
    ((crawlStructural true (crawlStructural true false false).2 false).1 = false ∧
     (false = false → (crawlStructural true false false).1 = true)) :=
  ⟨by decide, crawl_structural_idempotent true false (by decide)⟩

/-! ## The chunked window loop of `crawl_from_to`

src/crawler/smard.py:173-179 and src/oeds/crawler/e2watch.py:105-111 both
split the window as

    sliced_begin = begin
    sliced_end = sliced_begin + MAX_DELTA
    while end > sliced_end:
        fetch(sliced_begin, sliced_end)
        sliced_begin = sliced_end
        sliced_end += MAX_DELTA
    fetch(sliced_begin, end)

The fuel argument `n ≥ (e - b).toNat` bounds the iteration count (each
iteration advances the cursor by `delta ≥ 1`, so the loop runs at most
`e - b` times; the source's `MAX_DELTA` constants are positive).
-/

/-- One unfolding of the chunking loop, with fuel. -/
def chunkWindowsAux : Nat → Int → Int → Int → List (Int × Int)
  | 0, b, e, _ => [(b, e)]
  | n + 1, b, e, delta =>
    if b + delta < e then
      (b, b + delta) :: chunkWindowsAux n (b + delta) e delta
    else
      [(b, e)]

/-- The sub-windows fetched by the chunking loop for window `[b, e)` and
chunk size `delta`. -/
def chunkWindows (b e delta : Int) : List (Int × Int) :=
  chunkWindowsAux (e - b).toNat b e delta

theorem chunkWindowsAux_spec {delta : Int} (hdelta : 0 < delta) :
    ∀ (n : Nat) (b e : Int), (e - b).toNat ≤ n → b < e →
      ((chunkWindowsAux n b e delta).head?.map Prod.fst = some b) ∧
      ((chunkWindowsAux n b e delta).getLast?.map Prod.snd = some e) ∧
      List.Chain' (fun p q => p.2 = q.1) (chunkWindowsAux n b e delta) ∧
      (∀ w ∈ chunkWindowsAux n b e delta, w.1 < w.2 ∧ b ≤ w.1 ∧ w.2 ≤ e) ∧
      (∀ t : Int, (b ≤ t ∧ t < e) ↔
        ∃ w ∈ chunkWindowsAux n b e delta, w.1 ≤ t ∧ t < w.2) ∧
      List.Pairwise (fun p q => p.2 ≤ q.1) (chunkWindowsAux n b e delta) := by
  intro n
  induction n with
  | zero =>
    intro b e hn hbe
    exfalso
    omega
  | succ n ih =>
    intro b e hn hbe
    by_cases h : b + delta < e
    · obtain ⟨h1, h2, h3, h4, h5, h6⟩ := ih (b + delta) e (by omega) h
      have hne : chunkWindowsAux n (b + delta) e delta ≠ [] := by
        intro hnil
        rw [hnil] at h1
        simp at h1
      simp only [chunkWindowsAux, if_pos h]
      refine ⟨by simp, ?_, ?_, ?_, ?_, ?_⟩
      · cases hrest : chunkWindowsAux n (b + delta) e delta with
        | nil => exact absurd hrest hne
        | cons r rs =>
          rw [hrest] at h2
          simpa [List.getLast?_cons_cons] using h2
      · rw [List.chain'_cons']
        refine ⟨?_, h3⟩
        intro y hy
        cases hhead : (chunkWindowsAux n (b + delta) e delta).head? with
        | none => rw [hhead] at hy; cases hy
        | some w =>
          rw [hhead] at hy h1
          simp at hy h1
          subst hy
          simp [h1]
      · intro w hw
        rcases List.mem_cons.mp hw with rfl | hw'
        · exact ⟨by omega, le_refl _, le_of_lt h⟩
        · obtain ⟨ha, hb', hc⟩ := h4 w hw'
          exact ⟨ha, by omega, hc⟩
      · intro t
        constructor
        · rintro ⟨hbt, hte⟩
          by_cases ht : t < b + delta
          · exact ⟨(b, b + delta), List.mem_cons_self _ _, hbt, ht⟩
          · obtain ⟨w, hw, hw2⟩ := (h5 t).mp ⟨by omega, hte⟩
            exact ⟨w, List.mem_cons_of_mem _ hw, hw2⟩
        · rintro ⟨w, hw, hw1, hw2⟩
          rcases List.mem_cons.mp hw with rfl | hw'
          · exact ⟨hw1, by omega⟩
          · obtain ⟨_, hb', hc⟩ := h4 w hw'
            exact ⟨by omega, by omega⟩
      · rw [List.pairwise_cons]
        refine ⟨?_, h6⟩
        intro q hq
        obtain ⟨_, hb', _⟩ := h4 q hq
        simpa using hb'
    · simp only [chunkWindowsAux, if_neg h]
      refine ⟨by simp, by simp, by simp, ?_, ?_, by simp⟩
      · intro w hw
        simp only [List.mem_singleton] at hw
        subst hw
        exact ⟨hbe, le_refl _, le_refl _⟩
      · intro t
        simp only [List.mem_singleton]
        constructor
        · rintro ⟨ht1, ht2⟩
          exact ⟨(b, e), rfl, ht1, ht2⟩
        · rintro ⟨w, rfl, ht1, ht2⟩
          exact ⟨ht1, ht2⟩

/-- C4: for `begin < end` and a positive chunk delta, the sub-windows
generated by the chunking loop start at `begin`, end exactly at `end`
(also when `end - begin` is not a multiple of the delta), are contiguous
(each window starts where the previous one stopped), are pairwise
non-overlapping, and cover exactly `[begin, end)`. -/
theorem chunk_windows_partition (b e delta : Int)
    (hdelta : 0 < delta) (hbe : b < e) :
    ((chunkWindows b e delta).head?.map Prod.fst = some b) ∧
    ((chunkWindows b e delta).getLast?.map Prod.snd = some e) ∧
    List.Chain' (fun p q => p.2 = q.1) (chunkWindows b e delta) ∧
    (∀ w ∈ chunkWindows b e delta, w.1 < w.2) ∧
    (∀ t : Int, (b ≤ t ∧ t < e) ↔
      ∃ w ∈ chunkWindows b e delta, w.1 ≤ t ∧ t < w.2) ∧
    List.Pairwise (fun p q => p.2 ≤ q.1) (chunkWindows b e delta) := by
  obtain ⟨h1, h2, h3, h4, h5, h6⟩ :=
    chunkWindowsAux_spec hdelta (e - b).toNat b e (le_refl _) hbe
  exact ⟨h1, h2, h3, fun w hw => (h4 w hw).1, h5, h6⟩

/-- Witness for C4: window `[0, 10)` with delta 4 splits into
`[(0,4), (4,8), (8,10)]`. -/
theorem chunk_windows_partition_witness :
    (0:Int) < 4 ∧ (0:Int) < 10 ∧
    (((chunkWindows 0 10 4).head?.map Prod.fst = some 0) ∧
     ((chunkWindows 0 10 4).getLast?.map Prod.snd = some 10) ∧
     List.Chain' (fun p q => p.2 = q.1) (chunkWindows 0 10 4) ∧
     (∀ w ∈ chunkWindows 0 10 4, w.1 < w.2) ∧
     (∀ t : Int, ((0:Int) ≤ t ∧ t < 10) ↔
       ∃ w ∈ chunkWindows 0 10 4, w.1 ≤ t ∧ t < w.2) ∧
     List.Pairwise (fun p q => p.2 ≤ q.1) (chunkWindows 0 10 4)) :=
  ⟨by decide, by decide, chunk_windows_partition 0 10 4 (by decide) (by decide)⟩

/-! ## Failure propagation in the smard chunk loop

`SmardCrawler._crawl_single_period` (src/crawler/smard.py:181-237) wraps
each module-table fetch in `try/except`, logs the error — and then
re-raises it (`raise`, line 237).  The chunk loop in `crawl_from_to`
(lines 173-179) has no `try/except`, so the exception aborts the loop:
chunks after the failing one are never fetched.  `fail w` says whether
fetching window `w` raises.
-/

/-- The windows actually attempted by the sequential chunk loop with
abort-on-raise: every chunk before the first failing one, plus the
failing chunk itself. -/
def smardAttemptedChunks (fail : Int × Int → Bool) :
    List (Int × Int) → List (Int × Int)
  | [] => []
  | w :: ws => if fail w then [w] else w :: smardAttemptedChunks fail ws

/-- The windows attempted by `SmardCrawler.crawl_from_to`'s loop over the
chunked sub-windows of `[b, e)`. -/
def smardCrawlFromToAttempts (fail : Int × Int → Bool) (b e delta : Int) :
    List (Int × Int) :=
  smardAttemptedChunks fail (chunkWindows b e delta)

/-- C9 counterexample: with window `[0, 10)`, delta 4 and the fetch of
chunk `(0, 4)` raising, the later chunk `(4, 8)` is one of the generated
sub-windows but is never fetched: the failure aborts the remaining
chunks instead of continuing. -/
theorem chunk_failure_aborts_remaining :
    (4, 8) ∈ chunkWindows 0 10 4 ∧
    smardCrawlFromToAttempts (fun w => w == (0, 4)) 0 10 4 = [(0, 4)] ∧
    (4, 8) ∉ smardCrawlFromToAttempts (fun w => w == (0, 4)) 0 10 4 := by
  decide

/-- C9 (amended): in smard's chunked `crawl_from_to`, a chunk-fetch
failure is logged and re-raised, aborting the run: the chunks attempted
are exactly those before the first failing chunk plus the failing chunk
itself; every later chunk is skipped.  (Only when every chunk succeeds
are all chunks fetched.) -/
theorem smard_attempted_chunks_spec (fail : Int × Int → Bool)
    (chunks : List (Int × Int)) :
    smardAttemptedChunks fail chunks
      = chunks.takeWhile (fun w => !fail w)
          ++ (chunks.dropWhile (fun w => !fail w)).take 1 := by
  induction chunks with
  | nil => rfl
  | cons w ws ih =>
    by_cases h : fail w <;>
      simp [smardAttemptedChunks, List.takeWhile_cons, List.dropWhile_cons, h, ih]

/-! ## Rows written by `crawl_from_to` and the upper window bound

`SmardCrawler._crawl_single_period` (src/crawler/smard.py:181-237) parses
each module table's CSV response and appends it verbatim
(`df.to_sql(..., if_exists="append")`); `begin`/`end` only shape the HTTP
request (`timestamp_from`/`timestamp_to`), and no returned row is
filtered against `end` before the write.

`E2WatchCrawler.get_data_per_building` (src/oeds/crawler/e2watch.py:202-253)
requests each of the measurements strom, wasser, waerme with
day-granularity `from`/`to` strings.  Per measurement: an HTTP error is
logged and skipped (`continue`, lines 217-221), as is an empty
measurement series (224-226) or an empty temperature series (237-239);
otherwise the measurement series is inner-merged with the response's
temperature series on `timestamp` and merged into the accumulated frame
`df_last` (which it replaces while `df_last` is still empty).
`_crawl_single_period` (lines 116-136) then drops duplicate index
entries (keep first) and appends the frame verbatim; again no timestamp
is compared with `end`.
-/

/-- Timestamps written by `_crawl_single_period(begin, end)` (smard):
the parsed response rows of every module table, appended unfiltered. -/
def smardWrittenTimestamps (b e : Int) (responses : List (List Int)) :
    List Int :=
  responses.flatten

/-- pandas `merge(xs, ys, on=["timestamp"])`, restricted to the timestamp
column: the timestamps of the inner join. -/
def mergeOnTimestamp (xs ys : List Int) : List Int :=
  xs.filter fun t => ys.contains t

/-- pandas `df[~df.index.duplicated(keep="first")]` on the timestamp
index, with an accumulator of already-seen timestamps. -/
def dedupTimestampsAux (seen : List Int) : List Int → List Int
  | [] => []
  | t :: ts =>
    if seen.contains t then dedupTimestampsAux seen ts
    else t :: dedupTimestampsAux (t :: seen) ts

/-- Duplicate-index removal, keeping the first occurrence. -/
def dedupTimestampsKeepFirst (l : List Int) : List Int :=
  dedupTimestampsAux [] l

/-- The per-measurement loop body of `get_data_per_building`
(e2watch.py:210-248).  An outcome is `none` for an HTTP error
(`raise_for_status` caught and the measurement skipped) and
`some (ts, temp)` for a response parsed into the measurement timestamps
`ts` (`series[0]`) and temperature timestamps `temp` (`series[1]`).
An empty measurement or temperature series is likewise skipped
(`continue`); otherwise the measurement is merged with the temperature
on `timestamp` and then with the accumulated frame `df` — which it
replaces while `df` is still empty. -/
def e2watchProcessOne (df : List Int)
    (o : Option (List Int × List Int)) : List Int :=
  match o with
  | none => df
  | some (ts, temp) =>
    if ts.isEmpty then df
    else if temp.isEmpty then df
    else if df.isEmpty then mergeOnTimestamp ts temp
    else mergeOnTimestamp (mergeOnTimestamp ts temp) df

/-- Every timestamp of one outcome's upstream response (measurement and
temperature series). -/
def outcomeTimestamps (o : Option (List Int × List Int)) : List Int :=
  match o with
  | none => []
  | some (ts, temp) => ts ++ temp

/-- Timestamps written for one building by e2watch's
`_crawl_single_period`: `get_data_per_building` folds the strom, wasser
and waerme request outcomes into `df_last` (skipping failed or empty
measurements), then duplicate timestamps are dropped (keep first,
e2watch.py:132-134) and the frame is appended; nothing is clipped at
`end`. -/
def e2watchBuildingTimestamps
    (strom wasser waerme : Option (List Int × List Int)) : List Int :=
  dedupTimestampsKeepFirst
    ([strom, wasser, waerme].foldl e2watchProcessOne [])

theorem mem_mergeOnTimestamp {xs ys : List Int} {t : Int}
    (h : t ∈ mergeOnTimestamp xs ys) : t ∈ xs :=
  (List.mem_filter.mp h).1

theorem mem_dedupTimestampsAux {seen l : List Int} {t : Int}
    (h : t ∈ dedupTimestampsAux seen l) : t ∈ l := by
  induction l generalizing seen with
  | nil => cases h
  | cons a as ih =>
    simp only [dedupTimestampsAux] at h
    by_cases hc : seen.contains a
    · rw [if_pos hc] at h
      exact List.mem_cons_of_mem _ (ih h)
    · rw [if_neg hc] at h
      rcases List.mem_cons.mp h with rfl | h'
      · exact List.mem_cons_self _ _
      · exact List.mem_cons_of_mem _ (ih h')

theorem mem_e2watchProcessOne {df : List Int}
    {o : Option (List Int × List Int)} {t : Int}
    (ht : t ∈ e2watchProcessOne df o) :
    t ∈ df ∨ t ∈ outcomeTimestamps o := by
  cases o with
  | none => exact Or.inl ht
  | some pr =>
    obtain ⟨ts, temp⟩ := pr
    simp only [e2watchProcessOne] at ht
    by_cases h1 : ts.isEmpty
    · rw [if_pos h1] at ht
      exact Or.inl ht
    · rw [if_neg h1] at ht
      by_cases h2 : temp.isEmpty
      · rw [if_pos h2] at ht
        exact Or.inl ht
      · rw [if_neg h2] at ht
        by_cases h3 : df.isEmpty
        · rw [if_pos h3] at ht
          exact Or.inr (List.mem_append_left _ (mem_mergeOnTimestamp ht))
        · rw [if_neg h3] at ht
          exact Or.inr (List.mem_append_left _
            (mem_mergeOnTimestamp (mem_mergeOnTimestamp ht)))

theorem mem_foldl_e2watchProcessOne :
    ∀ (outcomes : List (Option (List Int × List Int))) (df : List Int)
      (t : Int), t ∈ outcomes.foldl e2watchProcessOne df →
      t ∈ df ∨ ∃ o ∈ outcomes, t ∈ outcomeTimestamps o := by
  intro outcomes
  induction outcomes with
  | nil =>
    intro df t ht
    exact Or.inl ht
  | cons o os ih =>
    intro df t ht
    rw [List.foldl_cons] at ht
    rcases ih _ t ht with h | ⟨o', ho', hto'⟩
    · rcases mem_e2watchProcessOne h with h' | h'
      · exact Or.inl h'
      · exact Or.inr ⟨o, List.mem_cons_self _ _, h'⟩
    · exact Or.inr ⟨o', List.mem_cons_of_mem _ ho', hto'⟩

/-- C5 counterexample: `crawl_from_to(0, 5)` writes a row with
timestamp 5 ≥ end whenever the upstream response contains one, because
the smard write path appends the parsed response verbatim without
filtering against `end`.  (The e2watch write path likewise performs no
clipping, and its request is made at day granularity, so an `end` inside
a day makes the upstream return such rows.) -/
theorem crawl_window_upper_bound_counterexample :
    (5:Int) ∈ smardWrittenTimestamps 0 5 [[5]] ∧ ¬ ((5:Int) < 5) := by
  decide

/-- C5 (amended): the rows written by `crawl_from_to(begin, end)` are
drawn verbatim from the upstream responses — the code enforces no bound
against `end`.  The half-open upper bound holds exactly when the
upstream's returned rows respect it: if every response timestamp is
`< end`, then every written row's timestamp is `< end` (smard appends
all response rows; e2watch writes a subset of the returned measurement
series, through the merges and the skips of failed or empty
measurements). -/
theorem crawl_window_rows_from_upstream (b e : Int)
    (responses : List (List Int))
    (strom wasser waerme : Option (List Int × List Int))
    (hresp : ∀ t ∈ responses.flatten, t < e)
    (houtc : ∀ o ∈ [strom, wasser, waerme],
      ∀ t ∈ outcomeTimestamps o, t < e) :
    (∀ t ∈ smardWrittenTimestamps b e responses, t < e) ∧
    (∀ t ∈ e2watchBuildingTimestamps strom wasser waerme, t < e) := by
  constructor
  · exact hresp
  · intro t ht
    unfold e2watchBuildingTimestamps at ht
    have h1 := mem_dedupTimestampsAux ht
    rcases mem_foldl_e2watchProcessOne _ _ _ h1 with h | ⟨o, ho, hto⟩
    · cases h
    · exact houtc o ho t hto

/-- Witness for the amended C5 at a concrete upstream response: the
strom request succeeds, the wasser request fails with an HTTP error and
the waerme response carries an empty measurement series. -/
theorem crawl_window_rows_from_upstream_witness :
    (∀ t ∈ ([[1, 2], [3]] : List (List Int)).flatten, t < 5) ∧
    (∀ o ∈ ([some ([1, 2], [2, 4]), none, some ([], [3])] :
        List (Option (List Int × List Int))),
      ∀ t ∈ outcomeTimestamps o, t < 5) ∧
    ((∀ t ∈ smardWrittenTimestamps 0 5 [[1, 2], [3]], t < 5) ∧
     (∀ t ∈ e2watchBuildingTimestamps (some ([1, 2], [2, 4])) none
        (some ([], [3])), t < 5)) :=
  ⟨by decide, by decide,
    crawl_window_rows_from_upstream 0 5 [[1, 2], [3]]
      (some ([1, 2], [2, 4])) none (some ([], [3]))
      (by decide) (by decide)⟩

/-! ## The metadata upsert (`set_metadata_only`)

src/oeds/base_crawler.py:128-166: the input record's missing optional
keys (`contact`, `temporal_start`, `temporal_end`) are set to `None`, a
missing `data_date` defaults to `date.today()`, and the row is
`INSERT ... ON CONFLICT (schema_name) DO UPDATE SET` into the
`public.metadata` catalog: every inserted column takes the `EXCLUDED`
(new) value on conflict, so an existing row with the same schema name is
replaced field-by-field by the new record.  (The subsequent `UPDATE` of
the derived stats and the `NOTIFY` are keyed by the same schema name and
do not affect the catalog columns modelled here.)
-/

/-- The caller-supplied metadata record: required fields plus the
optional ones the source normalizes (`None` models a missing key). -/
structure MetadataInfo where
  schema_name : String
  data_source : String
  license : String
  description : String
  contact : Option String
  temporal_start : Option String
  temporal_end : Option String
  data_date : Option String
deriving DecidableEq

/-- One row of the `public.metadata` catalog (the columns written by the
`INSERT`). -/
structure MetadataRow where
  schema_name : String
  data_date : String
  data_source : String
  license : String
  description : String
  contact : Option String
  temporal_start : Option String
  temporal_end : Option String
deriving DecidableEq

/-- The normalization loop of `set_metadata_only`: missing optional keys
become `None` (here: stay `none`), a missing `data_date` defaults to
today's date. -/
def normalizeMetadata (today : String) (m : MetadataInfo) : MetadataRow :=
  { schema_name := m.schema_name
    data_date := m.data_date.getD today
    data_source := m.data_source
    license := m.license
    description := m.description
    contact := m.contact
    temporal_start := m.temporal_start
    temporal_end := m.temporal_end }

/-- `INSERT ... ON CONFLICT (schema_name) DO UPDATE SET ...`: if a row
with the key exists it is replaced by the new record (every column takes
the `EXCLUDED` value), otherwise the record is appended. -/
def upsertMetadata (cat : List MetadataRow) (r : MetadataRow) :
    List MetadataRow :=
  if cat.any fun row => row.schema_name == r.schema_name then
    cat.map fun row => if row.schema_name == r.schema_name then r else row
  else
    cat ++ [r]

/-- `set_metadata_only`: normalize the record, then upsert it. -/
def setMetadataOnly (today : String) (cat : List MetadataRow)
    (m : MetadataInfo) : List MetadataRow :=
  upsertMetadata cat (normalizeMetadata today m)

theorem upsertMetadata_keyCount (cat : List MetadataRow) (r : MetadataRow)
    (h : (cat.countP fun row => row.schema_name == r.schema_name) ≤ 1) :
    ((upsertMetadata cat r).countP
        fun row => row.schema_name == r.schema_name) = 1 := by
  unfold upsertMetadata
  by_cases hany : (cat.any fun row => row.schema_name == r.schema_name) = true
  · rw [if_pos hany]
    have hpos : 0 < cat.countP fun row => row.schema_name == r.schema_name := by
      rw [List.countP_pos_iff]
      simpa using List.any_eq_true.mp hany
    have hmap : ((cat.map fun row =>
          if row.schema_name == r.schema_name then r else row).countP
            fun row => row.schema_name == r.schema_name)
        = cat.countP fun row => row.schema_name == r.schema_name := by
      rw [List.countP_map]
      apply List.countP_congr
      intro row _
      by_cases hk : row.schema_name = r.schema_name
      · simp [hk]
      · simp [hk]
    omega
  · rw [if_neg hany]
    have h0 : (cat.countP fun row => row.schema_name == r.schema_name) = 0 := by
      rw [List.countP_eq_zero]
      intro row hrow hcontra
      exact hany (List.any_eq_true.mpr ⟨row, hrow, hcontra⟩)
    rw [List.countP_append, h0]
    simp

theorem upsertMetadata_find (cat : List MetadataRow) (r : MetadataRow)
    (h : (cat.countP fun row => row.schema_name == r.schema_name) ≤ 1) :
    ((upsertMetadata cat r).find?
        fun row => row.schema_name == r.schema_name) = some r := by
  unfold upsertMetadata
  by_cases hany : (cat.any fun row => row.schema_name == r.schema_name) = true
  · rw [if_pos hany]
    clear h
    induction cat with
    | nil => simp at hany
    | cons a as ih =>
      simp only [List.any_cons, Bool.or_eq_true] at hany
      simp only [List.map_cons]
      by_cases hk : a.schema_name = r.schema_name
      · rw [if_pos (beq_iff_eq.mpr hk)]
        rw [List.find?_cons_of_pos _ (by simp)]
      · rw [if_neg (by simpa using hk)]
        rw [List.find?_cons_of_neg _ (by simpa using hk)]
        apply ih
        rcases hany with hcase | hcase
        · exact absurd (by simpa using hcase) hk
        · exact hcase
  · rw [if_neg hany]
    have hnone : (cat.find? fun row => row.schema_name == r.schema_name) = none := by
      rw [List.find?_eq_none]
      intro row hrow hcontra
      exact hany (List.any_eq_true.mpr ⟨row, hrow, hcontra⟩)
    rw [List.find?_append, hnone]
    simp

/-- C10: the metadata upsert is idempotent on the key.  Starting from a
catalog with at most one row for the schema name, upserting two records
with that schema name (and possibly different descriptions or other
field values) leaves exactly one catalog row for it, and that row is the
normalized form of the later record.  Normalization stores missing
optional fields (`contact`, `temporal_start`, `temporal_end`) as null
and defaults a missing `data_date` to the current date. -/
theorem metadata_upsert_idempotent (today1 today2 : String)
    (cat : List MetadataRow) (m1 m2 : MetadataInfo)
    (hkey : m1.schema_name = m2.schema_name)
    (hcat : (cat.countP fun row => row.schema_name == m2.schema_name) ≤ 1) :
    (((setMetadataOnly today2 (setMetadataOnly today1 cat m1) m2).countP
        fun row => row.schema_name == m2.schema_name) = 1 ∧
     ((setMetadataOnly today2 (setMetadataOnly today1 cat m1) m2).find?
        fun row => row.schema_name == m2.schema_name)
        = some (normalizeMetadata today2 m2)) ∧
    (∀ (today : String) (m : MetadataInfo),
      (m.contact = none → (normalizeMetadata today m).contact = none) ∧
      (m.temporal_start = none →
        (normalizeMetadata today m).temporal_start = none) ∧
      (m.temporal_end = none →
        (normalizeMetadata today m).temporal_end = none) ∧
      (m.data_date = none → (normalizeMetadata today m).data_date = today)) := by
  have hn1 : (normalizeMetadata today1 m1).schema_name = m2.schema_name := by
    simpa [normalizeMetadata] using hkey
  have hn2 : (normalizeMetadata today2 m2).schema_name = m2.schema_name := rfl
  have hcat1 : ((setMetadataOnly today1 cat m1).countP
      fun row => row.schema_name == m2.schema_name) = 1 := by
    unfold setMetadataOnly
    rw [← hn1] at hcat ⊢
    exact upsertMetadata_keyCount cat _ hcat
  have hcat2 : ((setMetadataOnly today1 cat m1).countP
      fun row => row.schema_name ==
        (normalizeMetadata today2 m2).schema_name) ≤ 1 := by
    rw [hn2]
    omega
  refine ⟨⟨?_, ?_⟩, ?_⟩
  · unfold setMetadataOnly
    exact upsertMetadata_keyCount _ _ hcat2
  · unfold setMetadataOnly
    exact upsertMetadata_find _ _ hcat2
  · intro today m
    refine ⟨?_, ?_, ?_, ?_⟩ <;> intro hm <;> simp [normalizeMetadata, hm]

/-- The spec's example records for C10: schema "smard", differing
descriptions, missing optional fields. -/
def metaInfoFirst : MetadataInfo :=
  { schema_name := "smard", data_source := "https://www.smard.de/",
    license := "CC-BY-4.0", description := "first", contact := none,
    temporal_start := none, temporal_end := none, data_date := none }

/-- The second record upserted in the C10 witness. -/
def metaInfoSecond : MetadataInfo :=
  { schema_name := "smard", data_source := "https://www.smard.de/",
    license := "CC-BY-4.0", description := "second", contact := none,
    temporal_start := none, temporal_end := none,
    data_date := some "2024-06-12" }

/-- Witness for C10: an empty catalog, two records for schema "smard"
with different descriptions; the surviving row reflects the second. -/
theorem metadata_upsert_idempotent_witness :
    metaInfoFirst.schema_name = metaInfoSecond.schema_name ∧
    (([] : List MetadataRow).countP
        fun row => row.schema_name == metaInfoSecond.schema_name) ≤ 1 ∧
    ((((setMetadataOnly "2024-01-01"
          (setMetadataOnly "2024-01-01" [] metaInfoFirst)
          metaInfoSecond).countP
        fun row => row.schema_name == metaInfoSecond.schema_name) = 1 ∧
      ((setMetadataOnly "2024-01-01"
          (setMetadataOnly "2024-01-01" [] metaInfoFirst)
          metaInfoSecond).find?
        fun row => row.schema_name == metaInfoSecond.schema_name)
        = some (normalizeMetadata "2024-01-01" metaInfoSecond)) ∧
     (∀ (today : String) (m : MetadataInfo),
       (m.contact = none →
         (normalizeMetadata today m).contact = none) ∧
       (m.temporal_start = none →
         (normalizeMetadata today m).temporal_start = none) ∧
       (m.temporal_end = none →
         (normalizeMetadata today m).temporal_end = none) ∧
       (m.data_date = none →
         (normalizeMetadata today m).data_date = today))) :=
  ⟨rfl, by decide,
    metadata_upsert_idempotent "2024-01-01" "2024-01-01" []
      metaInfoFirst metaInfoSecond rfl (by decide)⟩

/-! ## Coverage after `crawl_temporal` (C1) -/

theorem getLatestData_ge_floor {store : List Int} {floor : Int}
    (hstore : ∀ t ∈ store, floor ≤ t) : floor ≤ getLatestData store floor := by
  unfold getLatestData
  cases h : maxTimestamp store with
  | none => simp
  | some m => simpa using hstore m (maxTimestamp_mem h)

theorem mem_applyFetchesClamped_left {offset floor now : Int}
    {store : List Int} {calls : List (Int × Int)} {t : Int}
    (ht : t ∈ store) :
    t ∈ applyFetchesClamped offset floor now store calls :=
  List.mem_append_left _ ht

theorem mem_applyFetchesClamped_window {offset floor now : Int}
    {store : List Int} {calls : List (Int × Int)} {c : Int × Int} {t : Int}
    (hc : c ∈ calls) (ht : t ∈ fetchWindowClamped offset floor now c.1 c.2) :
    t ∈ applyFetchesClamped offset floor now store calls := by
  apply List.mem_append_right
  rw [List.mem_flatten]
  exact ⟨fetchWindowClamped offset floor now c.1 c.2,
    List.mem_map.mpr ⟨c, hc, rfl⟩, ht⟩

theorem mem_crawlTemporalOedsClamped_store (offset floor now : Int)
    (store : List Int) (begin? end? : Option Int) {t : Int}
    (ht : t ∈ store) :
    t ∈ crawlTemporalOedsClamped offset floor now store begin? end? :=
  mem_applyFetchesClamped_left ht

theorem mem_crawlTemporalOedsClamped_window (offset floor now : Int)
    (store : List Int) (begin? end? : Option Int) {c : Int × Int} {t : Int}
    (hc : c ∈ crawlTemporalCallsOeds offset (getFirstData store floor)
      (getLatestData store floor) begin? end? now)
    (ht : t ∈ fetchWindowClamped offset floor now c.1 c.2) :
    t ∈ crawlTemporalOedsClamped offset floor now store begin? end? :=
  mem_applyFetchesClamped_window hc ht

theorem crawlTemporalOedsClamped_empty_store (offset floor now b e : Int)
    (h : ¬ floor < min e (now - offset) ∨ ¬ floor < e - offset) :
    crawlTemporalOedsClamped offset floor now [] (some b) (some e) = [] := by
  have hback : fetchWindowClamped offset floor now b floor = [] := by
    unfold fetchWindowClamped
    exact intsIn_eq_nil (le_trans (min_le_left _ _) (le_max_right _ _))
  by_cases hfw : floor < e - offset
  · have hup : min e (now - offset) ≤ floor := by
      rcases h with h' | h'
      · exact not_lt.mp h'
      · exact absurd hfw h'
    have hforward : fetchWindowClamped offset floor now floor e = [] := by
      unfold fetchWindowClamped
      exact intsIn_eq_nil (le_trans hup (le_max_left _ _))
    by_cases hb : b < floor
    · simp [crawlTemporalOedsClamped, applyFetchesClamped,
        crawlTemporalCallsOeds, getFirstData, getLatestData, minTimestamp,
        maxTimestamp, backfillCall, forwardFillCallOeds, hfw, hb, hback,
        hforward]
    · simp [crawlTemporalOedsClamped, applyFetchesClamped,
        crawlTemporalCallsOeds, getFirstData, getLatestData, minTimestamp,
        maxTimestamp, backfillCall, forwardFillCallOeds, hfw, hb, hforward]
  · by_cases hb : b < floor
    · simp [crawlTemporalOedsClamped, applyFetchesClamped,
        crawlTemporalCallsOeds, getFirstData, getLatestData, minTimestamp,
        maxTimestamp, backfillCall, forwardFillCallOeds, hfw, hb, hback]
    · simp [crawlTemporalOedsClamped, applyFetchesClamped,
        crawlTemporalCallsOeds, getFirstData, getLatestData, minTimestamp,
        maxTimestamp, backfillCall, forwardFillCallOeds, hfw, hb]

/-- C1 counterexample: the per-source `crawl_from_to` clamps the upper
bound of every fetched window to the availability horizon
`now - minimum_offset` (e2watch.py:100-103; smard.py:170-171 with its
6-hour lag), so for `end` beyond `now` the stored maximum stays below
`end - minimum_offset` even though `crawl_temporal(begin, end)` completes
without raising and every fetch succeeds.  Concretely, with offset 1,
floor 0, `now = 5`, an empty table and `crawl_temporal(begin=0, end=10)`:
the forward-fill call `(0, 10)` is issued, its fetch succeeds and writes
the clamped window `[0, 4)`, and the stored maximum 3 is smaller than
`end - minimum_offset = 9`. -/
theorem crawl_temporal_coverage_counterexample :
    crawlTemporalCallsOeds 1 0 0 (some 0) (some 10) 5 = [(0, 10)] ∧
    crawlTemporalOedsClamped 1 0 5 [] (some 0) (some 10) = [0, 1, 2, 3] ∧
    ¬ ((10:Int) - 1 ≤
        getLatestData (crawlTemporalOedsClamped 1 0 5 [] (some 0) (some 10)) 0) := by
  decide

/-- C1 (amended): for the (src/oeds) `ContinuousCrawler`, after
`crawl_temporal(begin, end)` completes with every window fetch succeeding
against a reachable mock upstream (which serves all data from the
source's floor up to the availability horizon `now - minimum_offset`,
to which the per-source `crawl_from_to` clamps each window), the stored
minimum timestamp is at most `max(begin, floor)` and the stored maximum
timestamp is at least `min(end - minimum_offset, now - minimum_offset - 1)`
— in particular at least `end - minimum_offset` whenever `end < now`.
Hypotheses: the offset is at least one time unit (the default
`OFFSET_FROM_NOW` is one hour), and all previously stored rows lie in
`[floor, now - offset)`. -/
theorem crawl_temporal_coverage_clamped (offset floor now : Int)
    (store : List Int) (b e : Int) (hoff : 1 ≤ offset)
    (hstore : ∀ t ∈ store, floor ≤ t ∧ t < now - offset) :
    getFirstData
        (crawlTemporalOedsClamped offset floor now store (some b) (some e))
        floor ≤ max b floor ∧
    min (e - offset) (now - offset - 1) ≤
      getLatestData
        (crawlTemporalOedsClamped offset floor now store (some b) (some e))
        floor := by
  have hlatfl : floor ≤ getLatestData store floor :=
    getLatestData_ge_floor fun t ht => (hstore t ht).1
  constructor
  · -- stored minimum ≤ max(begin, floor)
    cases hmin : minTimestamp store with
    | some mn =>
      have hmn_mem : mn ∈ store := minTimestamp_mem hmin
      obtain ⟨hmn_fl, hmn_now⟩ := hstore mn hmn_mem
      have hfirst : getFirstData store floor = mn := by
        unfold getFirstData
        rw [hmin]
        rfl
      have hmnS :
          mn ∈ crawlTemporalOedsClamped offset floor now store (some b) (some e) :=
        mem_crawlTemporalOedsClamped_store offset floor now store
          (some b) (some e) hmn_mem
      by_cases hbf : b < getFirstData store floor
      · by_cases hmb : max b floor < mn
        · have hcall : (b, getFirstData store floor) ∈
              crawlTemporalCallsOeds offset (getFirstData store floor)
                (getLatestData store floor) (some b) (some e) now := by
            simp [crawlTemporalCallsOeds, backfillCall, hbf]
          have hw : max b floor ∈
              fetchWindowClamped offset floor now b (getFirstData store floor) := by
            unfold fetchWindowClamped
            rw [mem_intsIn, hfirst]
            refine ⟨le_refl _, ?_⟩
            rw [lt_min_iff]
            exact ⟨hmb, by omega⟩
          exact getFirstData_le_of_mem floor
            (mem_crawlTemporalOedsClamped_window offset floor now store
              (some b) (some e) hcall hw)
        · have h1 := getFirstData_le_of_mem floor hmnS
          omega
      · have h1 := getFirstData_le_of_mem floor hmnS
        rw [hfirst] at hbf
        have h2 := le_max_left b floor
        omega
    | none =>
      have hsnil : store = [] := minTimestamp_eq_none.mp hmin
      subst hsnil
      have hlat : getLatestData ([] : List Int) floor = floor := rfl
      by_cases hfw : floor < e - offset
      · by_cases hne : floor < min e (now - offset)
        · have hcall : (getLatestData ([] : List Int) floor, e) ∈
              crawlTemporalCallsOeds offset (getFirstData ([] : List Int) floor)
                (getLatestData ([] : List Int) floor) (some b) (some e) now := by
            simp [crawlTemporalCallsOeds, forwardFillCallOeds, hlat, hfw]
          have hw : floor ∈
              fetchWindowClamped offset floor now
                (getLatestData ([] : List Int) floor) e := by
            unfold fetchWindowClamped
            rw [hlat, mem_intsIn]
            refine ⟨?_, hne⟩
            simp
          have h1 := getFirstData_le_of_mem floor
            (mem_crawlTemporalOedsClamped_window offset floor now []
              (some b) (some e) hcall hw)
          have h2 := le_max_right b floor
          omega
        · rw [crawlTemporalOedsClamped_empty_store offset floor now b e
            (Or.inl hne)]
          exact le_max_right b floor
      · rw [crawlTemporalOedsClamped_empty_store offset floor now b e
          (Or.inr hfw)]
        exact le_max_right b floor
  · -- stored maximum ≥ min(end - offset, now - offset - 1)
    by_cases hfw : getLatestData store floor < e - offset
    · by_cases hne : getLatestData store floor < min e (now - offset)
      · have hcall : (getLatestData store floor, e) ∈
            crawlTemporalCallsOeds offset (getFirstData store floor)
              (getLatestData store floor) (some b) (some e) now := by
          simp [crawlTemporalCallsOeds, forwardFillCallOeds, hfw]
        have hw : min e (now - offset) - 1 ∈
            fetchWindowClamped offset floor now (getLatestData store floor) e := by
          unfold fetchWindowClamped
          rw [mem_intsIn]
          refine ⟨?_, by omega⟩
          rw [max_le_iff]
          constructor <;> omega
        have h1 := le_getLatestData_of_mem floor
          (mem_crawlTemporalOedsClamped_window offset floor now store
            (some b) (some e) hcall hw)
        rcases min_choice e (now - offset) with hm | hm
        · rw [hm] at h1
          have := min_le_left (e - offset) (now - offset - 1)
          omega
        · rw [hm] at h1
          have := min_le_right (e - offset) (now - offset - 1)
          omega
      · cases hmax : maxTimestamp store with
        | some mx =>
          have hmx_mem : mx ∈ store := maxTimestamp_mem hmax
          have hlat : getLatestData store floor = mx := by
            unfold getLatestData
            rw [hmax]
            rfl
          have hne' : min e (now - offset) ≤ mx := by
            rw [hlat] at hne
            exact not_lt.mp hne
          have hmx_now := (hstore mx hmx_mem).2
          rw [hlat] at hfw
          rcases min_choice e (now - offset) with hm | hm
          · rw [hm] at hne'
            omega
          · rw [hm] at hne'
            omega
        | none =>
          have hsnil : store = [] := maxTimestamp_eq_none.mp hmax
          subst hsnil
          have hlat : getLatestData ([] : List Int) floor = floor := rfl
          rw [hlat] at hne
          rw [crawlTemporalOedsClamped_empty_store offset floor now b e
            (Or.inl hne), hlat]
          have hne' : min e (now - offset) ≤ floor := not_lt.mp hne
          rcases min_choice e (now - offset) with hm | hm
          · rw [hm] at hne'
            have := min_le_left (e - offset) (now - offset - 1)
            omega
          · rw [hm] at hne'
            have := min_le_right (e - offset) (now - offset - 1)
            omega
    · cases hmax : maxTimestamp store with
      | some mx =>
        have hmx_mem : mx ∈ store := maxTimestamp_mem hmax
        have hlat : getLatestData store floor = mx := by
          unfold getLatestData
          rw [hmax]
          rfl
        have h1 := le_getLatestData_of_mem floor
          (mem_crawlTemporalOedsClamped_store offset floor now store
            (some b) (some e) hmx_mem)
        rw [hlat] at hfw
        have := min_le_left (e - offset) (now - offset - 1)
        omega
      | none =>
        have hsnil : store = [] := maxTimestamp_eq_none.mp hmax
        subst hsnil
        have hlat : getLatestData ([] : List Int) floor = floor := rfl
        rw [hlat] at hfw
        rw [crawlTemporalOedsClamped_empty_store offset floor now b e
          (Or.inr hfw), hlat]
        have := min_le_left (e - offset) (now - offset - 1)
        omega

/-- Witness for the amended C1: floor 0, offset 1, `now = 20`, stored
rows `[3, 4]`, `crawl_temporal(begin = -2, end = 10)`. -/
theorem crawl_temporal_coverage_clamped_witness :
    (1:Int) ≤ 1 ∧
    (∀ t ∈ ([3, 4] : List Int), (0:Int) ≤ t ∧ t < 20 - 1) ∧
    (getFirstData
        (crawlTemporalOedsClamped 1 0 20 [3, 4] (some (-2)) (some 10)) 0
        ≤ max (-2) 0 ∧
     min ((10:Int) - 1) (20 - 1 - 1) ≤
       getLatestData
        (crawlTemporalOedsClamped 1 0 20 [3, 4] (some (-2)) (some 10)) 0) :=
  ⟨by decide, by decide,
    crawl_temporal_coverage_clamped 1 0 20 [3, 4] (-2) 10
      (by decide) (by decide)⟩

end Oeds
